import Mathlib

/-!
Shallow embedding of `packages/https-proxy-agent/src/parse-proxy-response.ts`.

The source installs stream listeners (`read`/`ondata`, `onend`, `onerror`,
`cleanup`) and settles a promise.  We model a run of the parser as a fold over
the ordered list of chunks the stream delivers: each chunk is appended to the
accumulated buffer and `ondata`'s terminator search / header decoding runs on
the whole buffer, exactly as in the source.  Exhausting the chunk list models
the stream's end event (`onend`); `runChunksErr` models a stream error event
(`onerror`) arriving instead of the end event.  The `Final` record also
tracks the two observable side effects: whether `socket.destroy()` was called
and whether `cleanup()` (listener detachment) was called on the terminal
transition.
-/

/-- Raw bytes of a `Buffer` (each entry is one byte). -/
abbrev Bytes := List Nat

/-- A header value in the `headers` object: a single string after one
occurrence of a name, an ordered list after repeated occurrences. -/
inductive HeaderValue where
  | str (v : List Char)
  | list (vs : List (List Char))
deriving DecidableEq

/-- The `headers` object: insertion-ordered mapping from lower-cased header
name to value. -/
abbrev Headers := List (List Char × HeaderValue)

/-- The four rejection kinds of the source.  `streamError e` carries an
opaque identifier for the propagated error object. -/
inductive ConnErr where
  | prematureEnd
  | missingStatusLine
  | malformedHeader (line : List Char)
  | streamError (e : Nat)
deriving DecidableEq

/-- The `ConnectResponse` interface.  `statusCode` is the result of JS
`+firstLineParts[1]`; `none` stands for the `NaN` sentinel. -/
structure ConnectResponse where
  statusCode : Option Int
  statusText : List Char
  headers : Headers
deriving DecidableEq

/-- How the promise settles: `resolved` carries the `connect` value and the
`buffered` bytes, `rejected` the error. -/
inductive Outcome where
  | resolved (connect : ConnectResponse) (buffered : Bytes)
  | rejected (err : ConnErr)
deriving DecidableEq

/-- Terminal state of one run: the settled outcome plus whether
`socket.destroy()` ran and whether `cleanup()` (listener removal) ran on the
terminal transition. -/
structure Final where
  outcome : Outcome
  destroyed : Bool
  cleanedUp : Bool
deriving DecidableEq

/-- Whether the byte list begins with `0x0D 0x0A 0x0D 0x0A`. -/
def startsWithTerm : Bytes → Bool
  | b1 :: b2 :: b3 :: b4 :: _ => b1 == 13 && b2 == 10 && b3 == 13 && b4 == 10
  | _ => false

/-- `buffered.indexOf('\r\n\r\n') !== -1`: the terminator search runs on the
raw bytes of the accumulated buffer. -/
def hasTerminator : Bytes → Bool
  | [] => false
  | b :: rest => startsWithTerm (b :: rest) || hasTerminator rest

/-- `buffered.toString('ascii')`: Node's ascii decoder keeps the low 7 bits
of every byte. -/
def decodeAscii (b : Bytes) : List Char :=
  b.map (fun n => Char.ofNat (n % 128))

/-- Worker for `splitCRLF`: first segment plus remaining segments. -/
def splitCRLFAux : List Char → List Char × List (List Char)
  | [] => ([], [])
  | [c] => ([c], [])
  | c1 :: c2 :: rest =>
    if c1 = '\r' ∧ c2 = '\n' then
      let p := splitCRLFAux rest
      ([], p.1 :: p.2)
    else
      let p := splitCRLFAux (c2 :: rest)
      (c1 :: p.1, p.2)

/-- JS `s.split('\r\n')` (leftmost, non-overlapping). -/
def splitCRLF (s : List Char) : List (List Char) :=
  (splitCRLFAux s).1 :: (splitCRLFAux s).2

/-- Worker for `splitChar`. -/
def splitCharAux (sep : Char) : List Char → List Char × List (List Char)
  | [] => ([], [])
  | c :: rest =>
    let p := splitCharAux sep rest
    if c = sep then ([], p.1 :: p.2) else (c :: p.1, p.2)

/-- JS `s.split(sep)` for a single-character separator, as used by
`firstLine.split(' ')`. -/
def splitChar (sep : Char) (s : List Char) : List (List Char) :=
  (splitCharAux sep s).1 :: (splitCharAux sep s).2

/-- The ASCII whitespace recognized by JS `trimStart` and numeric coercion
(restricted to code points below 128, the only ones an ascii decode can
produce). -/
def isJsSpace (c : Char) : Bool :=
  c = ' ' || c = '\t' || c = '\n' || c = '\r' || c = '\x0b' || c = '\x0c'

/-- Value of a (non-empty, all-digit) decimal digit string. -/
def digitsVal (ds : List Char) : Nat :=
  ds.foldl (fun acc c => acc * 10 + (c.toNat - 48)) 0

/-- JS unary plus (`+firstLineParts[1]`) on the header text this parser can
produce, restricted to plain decimal integer forms: surrounding whitespace is
trimmed, the empty string coerces to `0`, an optionally signed digit string
to its value, and anything else (float, hex and exponent forms are not
exercised by a status-line token) to `NaN`, modelled as `none`. -/
def jsToNumber (s : List Char) : Option Int :=
  let t := ((s.dropWhile isJsSpace).reverse.dropWhile isJsSpace).reverse
  if t.isEmpty then some 0
  else if t.all Char.isDigit then some (Int.ofNat (digitsVal t))
  else if t.headD ' ' = '-' && !(t.drop 1).isEmpty && (t.drop 1).all Char.isDigit then
    some (-(Int.ofNat (digitsVal (t.drop 1))))
  else if t.headD ' ' = '+' && !(t.drop 1).isEmpty && (t.drop 1).all Char.isDigit then
    some (Int.ofNat (digitsVal (t.drop 1)))
  else none

/-- `header.indexOf(':')` combined with the two `slice` calls: splits a line
at its first colon, `none` when no colon occurs. -/
def splitFirstColon : List Char → Option (List Char × List Char)
  | [] => none
  | c :: rest =>
    if c = ':' then some ([], rest)
    else (splitFirstColon rest).map (fun p => (c :: p.1, p.2))

/-- JS `toLowerCase` on the ASCII range. -/
def lowerChar (c : Char) : Char :=
  if 'A' ≤ c ∧ c ≤ 'Z' then Char.ofNat (c.toNat + 32) else c

/-- The `headers[key]` update of the source: a new key stores a single
string, a second occurrence turns it into a two-element list, later
occurrences append (`current.push(value)`). -/
def addHeader : Headers → List Char → List Char → Headers
  | [], k, v => [(k, .str v)]
  | (k0, cur) :: rest, k, v =>
    if k0 = k then
      match cur with
      | .str s => (k0, .list [s, v]) :: rest
      | .list vs => (k0, .list (vs ++ [v])) :: rest
    else (k0, cur) :: addHeader rest k v

/-- First-match lookup in the insertion-ordered header map. -/
def lookupHeader : Headers → List Char → Option HeaderValue
  | [], _ => none
  | (k0, v) :: rest, k => if k0 = k then some v else lookupHeader rest k

/-- The `for (const header of headerParts)` loop: skips empty lines, rejects
a line without a colon (returning it), otherwise lower-cases the name, strips
the value's leading whitespace and stores the pair. -/
def parseHeaders : List (List Char) → Headers → Except (List Char) Headers
  | [], hs => .ok hs
  | line :: rest, hs =>
    if line.isEmpty then parseHeaders rest hs
    else
      match splitFirstColon line with
      | none => .error line
      | some (nm, v) =>
        parseHeaders rest (addHeader hs (nm.map lowerChar) (v.dropWhile isJsSpace))

/-- `+firstLineParts[1]` where `firstLineParts = firstLine.split(' ')`:
an absent token is JS `undefined`, which coerces to `NaN` (`none`). -/
def statusCodeOf (firstLine : List Char) : Option Int :=
  match (splitChar ' ' firstLine)[1]? with
  | some t => jsToNumber t
  | none => none

/-- `firstLineParts.slice(2).join(' ')`. -/
def statusTextOf (firstLine : List Char) : List Char :=
  List.intercalate [' '] ((splitChar ' ' firstLine).drop 2)

/-- The body of the source's `ondata` after the new chunk has been appended:
`buffered` is the whole accumulated buffer.  Returns `none` when no
terminator is present yet (the source calls `read()` again), otherwise the
terminal state.  Note the source splits the ascii decode of the ENTIRE
buffer on CR-LF, including any bytes after the terminator. -/
def ondata (buffered : Bytes) : Option Final :=
  if hasTerminator buffered then
    if ((splitCRLF (decodeAscii buffered)).headD []).isEmpty then
      some ⟨.rejected .missingStatusLine, true, false⟩
    else
      match parseHeaders (splitCRLF (decodeAscii buffered)).tail [] with
      | .error line => some ⟨.rejected (.malformedHeader line), true, false⟩
      | .ok headers =>
        some ⟨.resolved
          ⟨statusCodeOf ((splitCRLF (decodeAscii buffered)).headD []),
           statusTextOf ((splitCRLF (decodeAscii buffered)).headD []),
           headers⟩ buffered, false, true⟩
  else none

/-- A run of the parser over the chunks the stream delivers, in order,
starting from accumulated bytes `acc`.  Exhausting the chunks is the
stream's end event: `onend` calls `cleanup()` and rejects with the fixed
premature-end error, without destroying the socket. -/
def runChunks : List Bytes → Bytes → Final
  | [], _ => ⟨.rejected .prematureEnd, false, true⟩
  | c :: cs, acc =>
    match ondata (acc ++ c) with
    | some f => f
    | none => runChunks cs (acc ++ c)

/-- Like `runChunks` but the stream reports error `e` (instead of ending)
once the chunks are exhausted: `onerror` calls `cleanup()` and rejects with
the same error object, without destroying the socket. -/
def runChunksErr (e : Nat) : List Bytes → Bytes → Final
  | [], _ => ⟨.rejected (.streamError e), false, true⟩
  | c :: cs, acc =>
    match ondata (acc ++ c) with
    | some f => f
    | none => runChunksErr e cs (acc ++ c)

/-- The message text attached to each rejection in the source. -/
def errMessage : ConnErr → List Char
  | .prematureEnd => ("Proxy connection ended before receiving CONNECT response").data
  | .missingStatusLine => ("No header received from proxy CONNECT response").data
  | .malformedHeader line =>
    ("Invalid header from proxy CONNECT response: ").data ++ ['"'] ++ line ++ ['"']
  | .streamError _ => []

/-- Bytes of an ASCII string. -/
def toBytes (s : List Char) : Bytes := s.map Char.toNat

/-- Modelled from the spec's side-effect table: the outcomes on which the
listener detachment (`cleanup()`) actually runs in the source.  Used to
state the amended C5. -/
def cleanupExpected : Outcome → Bool
  | .rejected .missingStatusLine => false
  | .rejected (.malformedHeader _) => false
  | _ => true

/-- The outcomes on which the source calls `socket.destroy()`: exactly the
two invalid-structure rejections. -/
def destroyExpected : Outcome → Bool
  | .rejected .missingStatusLine => true
  | .rejected (.malformedHeader _) => true
  | _ => false

theorem ondata_flags (buf : Bytes) (f : Final) (h : ondata buf = some f) :
    f.cleanedUp = cleanupExpected f.outcome ∧ f.destroyed = destroyExpected f.outcome := by
  by_cases ht : hasTerminator buf = true
  · rw [ondata, if_pos ht] at h
    split at h
    · cases h; simp [cleanupExpected, destroyExpected]
    · split at h
      · cases h; simp [cleanupExpected, destroyExpected]
      · cases h; simp [cleanupExpected, destroyExpected]
  · rw [ondata, if_neg ht] at h; cases h

theorem runChunks_flags (cs : List Bytes) (acc : Bytes) :
    (runChunks cs acc).cleanedUp = cleanupExpected (runChunks cs acc).outcome ∧
      (runChunks cs acc).destroyed = destroyExpected (runChunks cs acc).outcome := by
  induction cs generalizing acc with
  | nil => simp [runChunks, cleanupExpected, destroyExpected]
  | cons c cs ih =>
    rw [runChunks]
    cases hond : ondata (acc ++ c) with
    | some f => exact ondata_flags _ _ hond
    | none => exact ih (acc ++ c)

theorem runChunksErr_flags (e : Nat) (cs : List Bytes) (acc : Bytes) :
    (runChunksErr e cs acc).cleanedUp = cleanupExpected (runChunksErr e cs acc).outcome ∧
      (runChunksErr e cs acc).destroyed = destroyExpected (runChunksErr e cs acc).outcome := by
  induction cs generalizing acc with
  | nil => simp [runChunksErr, cleanupExpected, destroyExpected]
  | cons c cs ih =>
    rw [runChunksErr]
    cases hond : ondata (acc ++ c) with
    | some f => exact ondata_flags _ _ hond
    | none => exact ih (acc ++ c)

/-- C1: evaluated on the code, the claimed example input does NOT resolve.
The source splits the ascii decode of the ENTIRE buffer on CR-LF, so the
trailing tunnel payload becomes a line; having no colon, it triggers the
malformed-header rejection with `socket.destroy()`. -/
theorem c1_example_input_rejected :
    runChunks [toBytes (("HTTP/1.1 200 Connection established\r\nProxy-agent: test\r\n\r\n<tunnel-bytes>").data)] [] =
      ⟨.rejected (.malformedHeader (("<tunnel-bytes>").data)), true, false⟩ := by decide

/-- C2: evaluated on the code, chunk boundaries change the resolved
ConnectResponse.  The same valid response with trailing bytes yields an
extra header entry when delivered in one chunk, but no such entry when the
trailing bytes arrive in a later chunk, so the parser is not
chunk-boundary-invariant. -/
theorem c2_chunking_changes_response :
    runChunks [toBytes (("HTTP/1.1 200 OK\r\n\r\na:b").data)] [] =
        ⟨.resolved ⟨some 200, ("OK").data, [(['a'], .str ['b'])]⟩
          (toBytes (("HTTP/1.1 200 OK\r\n\r\na:b").data)), false, true⟩ ∧
      runChunks [toBytes (("HTTP/1.1 200 OK\r\n\r\n").data), toBytes (("a:b").data)] [] =
        ⟨.resolved ⟨some 200, ("OK").data, []⟩
          (toBytes (("HTTP/1.1 200 OK\r\n\r\n").data)), false, true⟩ ∧
      (⟨some 200, ("OK").data, [(['a'], .str ['b'])]⟩ : ConnectResponse) ≠
        ⟨some 200, ("OK").data, []⟩ := by decide

/-- C3: evaluated on the code, bytes located after the terminator ARE
interpreted as header lines: here `x: y` lies entirely after the
CR-LF-CR-LF terminator yet produces a headers entry. -/
theorem c3_bytes_after_terminator_parsed :
    runChunks [toBytes (("HTTP/1.1 200 OK\r\n\r\nx: y").data)] [] =
      ⟨.resolved ⟨some 200, ("OK").data, [(['x'], .str ['y'])]⟩
        (toBytes (("HTTP/1.1 200 OK\r\n\r\nx: y").data)), false, true⟩ := by decide

/-- C5 counterexample: on the MissingStatusLine terminal transition the
source calls `socket.destroy()` and rejects WITHOUT calling `cleanup()`, so
the end/error listeners are not detached on that transition, contrary to
the claim that every terminal transition detaches them. -/
theorem c5_counterexample :
    (runChunks [toBytes (("\r\n\r\n").data)] []).outcome = .rejected .missingStatusLine ∧
      (runChunks [toBytes (("\r\n\r\n").data)] []).cleanedUp = false := by decide

/-- C5 (amended): the listeners are detached exactly on the success,
PrematureEnd and StreamError terminal transitions; on the MissingStatusLine
and MalformedHeaderLine transitions the stream is destroyed instead and
`cleanup()` never runs. -/
theorem c5_cleanup_on_terminal (cs : List Bytes) (e : Nat) :
    (runChunks cs []).cleanedUp = cleanupExpected (runChunks cs []).outcome ∧
      (runChunksErr e cs []).cleanedUp = cleanupExpected (runChunksErr e cs []).outcome :=
  ⟨(runChunks_flags cs []).1, (runChunksErr_flags e cs []).1⟩

/-- C8: over every run, the stream is destroyed exactly when the outcome is
one of the two invalid-structure rejections (MissingStatusLine or
MalformedHeaderLine), and never on success, premature end or stream
error. -/
theorem c8_destroy_exactly_on_invalid_structure (cs : List Bytes) (e : Nat) :
    (runChunks cs []).destroyed = destroyExpected (runChunks cs []).outcome ∧
      (runChunksErr e cs []).destroyed = destroyExpected (runChunksErr e cs []).outcome :=
  ⟨(runChunks_flags cs []).2, (runChunksErr_flags e cs []).2⟩

theorem startsWithTerm_append (l b : Bytes) (h : startsWithTerm l = true) :
    startsWithTerm (l ++ b) = true := by
  match l with
  | [] => simp [startsWithTerm] at h
  | [_] => simp [startsWithTerm] at h
  | [_, _] => simp [startsWithTerm] at h
  | [_, _, _] => simp [startsWithTerm] at h
  | b1 :: b2 :: b3 :: b4 :: r => simpa [startsWithTerm] using h

theorem hasTerminator_mono (a b : Bytes) (h : hasTerminator a = true) :
    hasTerminator (a ++ b) = true := by
  induction a with
  | nil => simp [hasTerminator] at h
  | cons x a ih =>
    rw [hasTerminator] at h
    simp only [Bool.or_eq_true] at h
    rw [List.cons_append, hasTerminator]
    simp only [Bool.or_eq_true]
    rcases h with h | h
    · exact Or.inl (by simpa using startsWithTerm_append (x :: a) b h)
    · exact Or.inr (ih h)

theorem ondata_eq_none (buf : Bytes) (h : hasTerminator buf = false) : ondata buf = none := by
  rw [ondata, if_neg (by simp [h])]

theorem runChunks_no_term (cs : List Bytes) (acc : Bytes)
    (h : hasTerminator (acc ++ cs.flatten) = false) :
    runChunks cs acc = ⟨.rejected .prematureEnd, false, true⟩ ∧
      ∀ e, runChunksErr e cs acc = ⟨.rejected (.streamError e), false, true⟩ := by
  induction cs generalizing acc with
  | nil => exact ⟨rfl, fun e => rfl⟩
  | cons c cs ih =>
    have h2 : hasTerminator ((acc ++ c) ++ cs.flatten) = false := by
      simpa [List.append_assoc] using h
    have hac : hasTerminator (acc ++ c) = false := by
      rcases hxx : hasTerminator (acc ++ c) with _ | _
      · rfl
      · exfalso
        rw [hasTerminator_mono (acc ++ c) cs.flatten hxx] at h2
        exact Bool.noConfusion h2
    have hnone := ondata_eq_none _ hac
    constructor
    · rw [runChunks, hnone]
      exact (ih (acc ++ c) h2).1
    · intro e
      rw [runChunksErr, hnone]
      exact (ih (acc ++ c) h2).2 e

/-- C9: when the stream ends while no terminator was ever observed in the
accumulated bytes (including the zero-byte case), the parser rejects with
the fixed PrematureEnd message, and when the stream instead reports error
`e` there, it rejects with that same error, unchanged; neither path
destroys the stream. -/
theorem c9_premature_end_and_error_propagation (cs : List Bytes) (e : Nat)
    (h : hasTerminator cs.flatten = false) :
    runChunks cs [] = ⟨.rejected .prematureEnd, false, true⟩ ∧
      runChunksErr e cs [] = ⟨.rejected (.streamError e), false, true⟩ ∧
      errMessage .prematureEnd =
        ("Proxy connection ended before receiving CONNECT response").data := by
  have h0 := runChunks_no_term cs [] (by simpa using h)
  exact ⟨h0.1, h0.2 e, rfl⟩

/-- C9 witness: ending after only `HTTP/1.1 200` (no terminator) rejects
with PrematureEnd; a stream error there is propagated unchanged. -/
theorem c9_witness :
    hasTerminator (([toBytes (("HTTP/1.1 200").data)] : List Bytes).flatten) = false ∧
      (runChunks [toBytes (("HTTP/1.1 200").data)] [] =
          ⟨.rejected .prematureEnd, false, true⟩ ∧
        runChunksErr 7 [toBytes (("HTTP/1.1 200").data)] [] =
          ⟨.rejected (.streamError 7), false, true⟩ ∧
        errMessage .prematureEnd =
          ("Proxy connection ended before receiving CONNECT response").data) :=
  ⟨by decide, c9_premature_end_and_error_propagation [toBytes (("HTTP/1.1 200").data)] 7 (by decide)⟩

theorem ondata_none_inv (buf : Bytes) (h : ondata buf = none) :
    hasTerminator buf = false := by
  rcases hx : hasTerminator buf with _ | _
  · rfl
  · rw [ondata, if_pos hx] at h
    split at h
    · cases h
    · split at h <;> cases h

theorem ondata_resolved_buffered (buf : Bytes) (f : Final) (r : ConnectResponse) (b : Bytes)
    (h : ondata buf = some f) (ho : f.outcome = .resolved r b) :
    b = buf ∧ hasTerminator buf = true := by
  rcases hx : hasTerminator buf with _ | _
  · rw [ondata_eq_none _ hx] at h; cases h
  · refine ⟨?_, rfl⟩
    rw [ondata, if_pos hx] at h
    split at h
    · injection h with h1; subst h1; simp at ho
    · split at h
      · injection h with h1; subst h1; simp at ho
      · injection h with h1; subst h1
        exact (Outcome.resolved.inj ho).2.symm

theorem runChunks_resolved_take (cs : List Bytes) (acc : Bytes) (r : ConnectResponse) (b : Bytes)
    (hacc : hasTerminator acc = false)
    (h : (runChunks cs acc).outcome = .resolved r b) :
    ∃ k, k ≤ cs.length ∧ b = acc ++ (cs.take k).flatten ∧
      hasTerminator b = true ∧
      ∀ j < k, hasTerminator (acc ++ (cs.take j).flatten) = false := by
  induction cs generalizing acc with
  | nil => simp [runChunks] at h
  | cons c cs ih =>
    cases hond : ondata (acc ++ c) with
    | some f =>
      have h2 : f.outcome = .resolved r b := by rw [runChunks, hond] at h; exact h
      obtain ⟨hb, ht⟩ := ondata_resolved_buffered _ _ _ _ hond h2
      refine ⟨1, by simp, by simpa using hb, by rw [hb]; exact ht, ?_⟩
      intro j hj
      have hj0 : j = 0 := Nat.lt_one_iff.mp hj
      subst hj0
      simpa using hacc
    | none =>
      have h2 : (runChunks cs (acc ++ c)).outcome = .resolved r b := by
        rw [runChunks, hond] at h; exact h
      obtain ⟨k, hk, hb, ht, hmin⟩ := ih (acc ++ c) (ondata_none_inv _ hond) h2
      refine ⟨k + 1, by simpa using Nat.succ_le_succ hk, ?_, ht, ?_⟩
      · simpa [List.append_assoc] using hb
      · intro j hj
        cases j with
        | zero => simpa using hacc
        | succ j =>
          have hm := hmin j (Nat.lt_of_succ_lt_succ hj)
          simpa [List.append_assoc] using hm

/-- C4: at resolution, `buffered` equals the byte-exact concatenation, in
arrival order, of exactly the chunks read before resolution — the shortest
prefix of the chunk list whose concatenation contains the terminator — with
any bytes past the terminator included unmodified. -/
theorem c4_buffered_concat_of_read_chunks (cs : List Bytes) (r : ConnectResponse) (b : Bytes)
    (h : (runChunks cs []).outcome = .resolved r b) :
    ∃ k, k ≤ cs.length ∧ b = (cs.take k).flatten ∧
      hasTerminator b = true ∧
      ∀ j < k, hasTerminator ((cs.take j).flatten) = false := by
  obtain ⟨k, hk, hb, ht, hmin⟩ := runChunks_resolved_take cs [] r b rfl h
  exact ⟨k, hk, by simpa using hb, ht, fun j hj => by simpa using hmin j hj⟩

/-- C4 witness: a two-chunk run whose second chunk completes the terminator
and carries trailing bytes; `buffered` is the concatenation of both
chunks. -/
theorem c4_witness :
    ((runChunks [toBytes (("HTTP/1.1 200 OK\r\n").data), toBytes (("\r\na:b").data)] []).outcome =
        .resolved ⟨some 200, ("OK").data, [(['a'], .str ['b'])]⟩
          (toBytes (("HTTP/1.1 200 OK\r\n\r\na:b").data))) ∧
      (∃ k, k ≤ ([toBytes (("HTTP/1.1 200 OK\r\n").data), toBytes (("\r\na:b").data)] : List Bytes).length ∧
        toBytes (("HTTP/1.1 200 OK\r\n\r\na:b").data) =
          (([toBytes (("HTTP/1.1 200 OK\r\n").data), toBytes (("\r\na:b").data)] : List Bytes).take k).flatten ∧
        hasTerminator (toBytes (("HTTP/1.1 200 OK\r\n\r\na:b").data)) = true ∧
        ∀ j < k, hasTerminator
          ((([toBytes (("HTTP/1.1 200 OK\r\n").data), toBytes (("\r\na:b").data)] : List Bytes).take j).flatten) = false) :=
  ⟨by decide,
    c4_buffered_concat_of_read_chunks
      [toBytes (("HTTP/1.1 200 OK\r\n").data), toBytes (("\r\na:b").data)]
      ⟨some 200, ("OK").data, [(['a'], .str ['b'])]⟩
      (toBytes (("HTTP/1.1 200 OK\r\n\r\na:b").data)) (by decide)⟩

/-! ### A rendered well-formed response (status line, header lines, terminator) -/

/-- CR-LF as characters. -/
def CRLF : List Char := ['\r', '\n']

/-- One header line as sent on the wire: `name:value`. -/
def renderHeaderLine (p : List Char × List Char) : List Char := p.1 ++ ':' :: p.2

/-- A full response with no trailing bytes: status line, CR-LF, each header
line followed by CR-LF, and the final CR-LF completing the terminator. -/
def render (sl : List Char) (hdrs : List (List Char × List Char)) : List Char :=
  sl ++ CRLF ++ (hdrs.map (fun p => renderHeaderLine p ++ CRLF)).flatten ++ CRLF

/-- The lower-cased name and leading-trimmed value actually stored for a
declared header pair. -/
def declaredPair (p : List Char × List Char) : List Char × List Char :=
  (p.1.map lowerChar, p.2.dropWhile isJsSpace)

/-- The headers object the source's loop builds from the declared pairs. -/
def buildHeaders (hdrs : List (List Char × List Char)) : Headers :=
  (hdrs.map declaredPair).foldl (fun hs p => addHeader hs p.1 p.2) []

theorem render_nil (sl : List Char) :
    render sl [] = sl ++ '\r' :: '\n' :: '\r' :: '\n' :: [] := by
  simp [render, CRLF]

theorem render_cons (sl : List Char) (p : List Char × List Char)
    (ps : List (List Char × List Char)) :
    render sl (p :: ps) = sl ++ '\r' :: '\n' :: render (renderHeaderLine p) ps := by
  simp [render, CRLF, List.append_assoc]

theorem toBytes_append (a b : List Char) : toBytes (a ++ b) = toBytes a ++ toBytes b := by
  simp [toBytes]

theorem toBytes_cons (c : Char) (s : List Char) : toBytes (c :: s) = c.toNat :: toBytes s := rfl

theorem hasTerminator_append_term (a b : Bytes) :
    hasTerminator (a ++ 13 :: 10 :: 13 :: 10 :: b) = true := by
  induction a with
  | nil => simp [hasTerminator, startsWithTerm]
  | cons x a ih => simp [hasTerminator, ih]

theorem hasTerminator_append_right (a b : Bytes) (h : hasTerminator b = true) :
    hasTerminator (a ++ b) = true := by
  induction a with
  | nil => simpa using h
  | cons x a ih => simp [hasTerminator, ih]

theorem hasTerminator_render (sl : List Char) (hdrs : List (List Char × List Char)) :
    hasTerminator (toBytes (render sl hdrs)) = true := by
  induction hdrs generalizing sl with
  | nil =>
    rw [render_nil, toBytes_append]
    have h1 : toBytes ('\r' :: '\n' :: '\r' :: '\n' :: []) = 13 :: 10 :: 13 :: 10 :: [] := by
      decide
    rw [h1]
    exact hasTerminator_append_term (toBytes sl) []
  | cons p ps ih =>
    rw [render_cons, toBytes_append]
    refine hasTerminator_append_right _ _ ?_
    rw [toBytes_cons, toBytes_cons]
    have hcr : ('\r').toNat = 13 := by decide
    have hlf : ('\n').toNat = 10 := by decide
    rw [hcr, hlf]
    exact hasTerminator_append_right (13 :: 10 :: []) _ (ih (renderHeaderLine p))

theorem decodeAscii_toBytes (s : List Char) (h : ∀ c ∈ s, c.toNat < 128) :
    decodeAscii (toBytes s) = s := by
  induction s with
  | nil => rfl
  | cons c s ih =>
    have h1 : c.toNat < 128 := h c (by simp)
    have h2 := ih (fun x hx => h x (by simp [hx]))
    simp only [decodeAscii, toBytes, List.map_cons, List.map_map] at h2 ⊢
    rw [List.cons_eq_cons]
    exact ⟨by rw [Nat.mod_eq_of_lt h1, Char.ofNat_toNat], h2⟩

theorem splitCRLFAux_crlf (a b : List Char) (ha : '\r' ∉ a) :
    splitCRLFAux (a ++ '\r' :: '\n' :: b) =
      (a, (splitCRLFAux b).1 :: (splitCRLFAux b).2) := by
  induction a with
  | nil => simp [splitCRLFAux]
  | cons c a ih =>
    have hc : c ≠ '\r' := fun hh => ha (by simp [hh])
    have ha2 : '\r' ∉ a := fun hh => ha (by simp [hh])
    cases a with
    | nil => simp [splitCRLFAux, hc]
    | cons c2 a2 =>
      have h2 := ih ha2
      simp only [List.cons_append] at h2 ⊢
      simp [splitCRLFAux, hc, h2]

theorem splitCRLF_crlf (a b : List Char) (ha : '\r' ∉ a) :
    splitCRLF (a ++ '\r' :: '\n' :: b) = a :: splitCRLF b := by
  simp [splitCRLF, splitCRLFAux_crlf a b ha]

theorem splitCRLF_render (sl : List Char) (hdrs : List (List Char × List Char))
    (hsl : '\r' ∉ sl) (hh : ∀ p ∈ hdrs, '\r' ∉ renderHeaderLine p) :
    splitCRLF (render sl hdrs) = sl :: (hdrs.map renderHeaderLine ++ [[], []]) := by
  induction hdrs generalizing sl with
  | nil =>
    rw [render_nil, splitCRLF_crlf sl ('\r' :: '\n' :: []) hsl]
    have h2 : splitCRLF ('\r' :: '\n' :: []) = [[], []] := by decide
    rw [h2]
    rfl
  | cons p ps ih =>
    rw [render_cons, splitCRLF_crlf sl _ hsl,
      ih (renderHeaderLine p) (hh p (by simp)) (fun q hq => hh q (by simp [hq]))]
    simp

theorem splitFirstColon_render (nm v : List Char) (h : ':' ∉ nm) :
    splitFirstColon (nm ++ ':' :: v) = some (nm, v) := by
  induction nm with
  | nil => simp [splitFirstColon]
  | cons c nm ih =>
    have hc : c ≠ ':' := fun hh => h (by simp [hh])
    have h2 : ':' ∉ nm := fun hh => h (by simp [hh])
    simp [splitFirstColon, hc, ih h2]

theorem renderHeaderLine_not_empty (p : List Char × List Char) :
    (renderHeaderLine p).isEmpty = false := by
  rcases p with ⟨a, b⟩
  cases a <;> simp [renderHeaderLine]

theorem parseHeaders_render (hdrs : List (List Char × List Char)) (hs : Headers)
    (hh : ∀ p ∈ hdrs, ':' ∉ p.1) :
    parseHeaders (hdrs.map renderHeaderLine ++ [[], []]) hs =
      .ok ((hdrs.map declaredPair).foldl (fun h p => addHeader h p.1 p.2) hs) := by
  revert hh
  induction hdrs generalizing hs with
  | nil => intro hh; rfl
  | cons p ps ih =>
    intro hh
    have h1 : ':' ∉ p.1 := hh p (by simp)
    have h2 : ∀ q ∈ ps, ':' ∉ q.1 := fun q hq => hh q (by simp [hq])
    simp only [List.map_cons, List.cons_append, List.foldl_cons]
    rw [parseHeaders, if_neg (by simp [renderHeaderLine_not_empty])]
    rw [show splitFirstColon (renderHeaderLine p) = some (p.1, p.2) from
      splitFirstColon_render p.1 p.2 h1]
    exact ih (addHeader hs (p.1.map lowerChar) (p.2.dropWhile isJsSpace)) h2

theorem runChunks_render (sl : List Char) (hdrs : List (List Char × List Char))
    (hsl0 : sl ≠ []) (hslr : '\r' ∉ sl) (hsla : ∀ c ∈ sl, c.toNat < 128)
    (hh : ∀ p ∈ hdrs, ':' ∉ p.1 ∧ '\r' ∉ p.1 ∧ '\r' ∉ p.2 ∧
      (∀ c ∈ p.1, c.toNat < 128) ∧ (∀ c ∈ p.2, c.toNat < 128)) :
    runChunks [toBytes (render sl hdrs)] [] =
      ⟨.resolved ⟨statusCodeOf sl, statusTextOf sl, buildHeaders hdrs⟩
        (toBytes (render sl hdrs)), false, true⟩ := by
  have hterm : hasTerminator (toBytes (render sl hdrs)) = true := hasTerminator_render sl hdrs
  have hascii : ∀ c ∈ render sl hdrs, c.toNat < 128 := by
    have hmemCRLF : ∀ c ∈ CRLF, c.toNat < 128 := by decide
    intro c hc
    rw [render] at hc
    rcases List.mem_append.mp hc with hc | hc
    · rcases List.mem_append.mp hc with hc | hc
      · rcases List.mem_append.mp hc with hc | hc
        · exact hsla c hc
        · exact hmemCRLF c hc
      · rcases List.mem_flatten.mp hc with ⟨l, hl, hcl⟩
        rcases List.mem_map.mp hl with ⟨p, hp, rfl⟩
        rcases List.mem_append.mp hcl with hc2 | hc2
        · rw [renderHeaderLine] at hc2
          rcases List.mem_append.mp hc2 with hc3 | hc3
          · exact (hh p hp).2.2.2.1 c hc3
          · rcases List.mem_cons.mp hc3 with he | hc4
            · rw [he]; decide
            · exact (hh p hp).2.2.2.2 c hc4
        · exact hmemCRLF c hc2
    · exact hmemCRLF c hc
  have hdec : decodeAscii (toBytes (render sl hdrs)) = render sl hdrs :=
    decodeAscii_toBytes _ hascii
  have hrline : ∀ p ∈ hdrs, '\r' ∉ renderHeaderLine p := by
    intro p hp hmem
    rcases hh p hp with ⟨-, h1, h2, -, -⟩
    rw [renderHeaderLine] at hmem
    rcases List.mem_append.mp hmem with hm | hm
    · exact h1 hm
    · rcases List.mem_cons.mp hm with he | hm2
      · exact absurd he (by decide)
      · exact h2 hm2
  have hsplit : splitCRLF (render sl hdrs) = sl :: (hdrs.map renderHeaderLine ++ [[], []]) :=
    splitCRLF_render sl hdrs hslr hrline
  have hfe : sl.isEmpty = false := by
    cases sl with
    | nil => exact absurd rfl hsl0
    | cons c s => rfl
  have hph := parseHeaders_render hdrs [] (fun p hp => (hh p hp).1)
  have hond : ondata (toBytes (render sl hdrs)) =
      some ⟨.resolved ⟨statusCodeOf sl, statusTextOf sl, buildHeaders hdrs⟩
        (toBytes (render sl hdrs)), false, true⟩ := by
    rw [ondata, if_pos hterm, hdec, hsplit]
    simp only [List.headD_cons, List.tail_cons]
    rw [if_neg (by simp [hfe]), hph]
    rfl
  rw [runChunks, List.nil_append, hond]

theorem digit_not_space (c : Char) (h : c.isDigit = true) : isJsSpace c = false := by
  rcases hx : isJsSpace c with _ | _
  · rfl
  · exfalso
    rw [isJsSpace] at hx
    simp only [Bool.or_eq_true, decide_eq_true_eq] at hx
    rcases hx with ((((rfl | rfl) | rfl) | rfl) | rfl) | rfl <;> exact absurd h (by decide)

theorem dropWhile_isJsSpace_digits (s : List Char) (h : s.all Char.isDigit = true) :
    s.dropWhile isJsSpace = s := by
  cases s with
  | nil => rfl
  | cons c s =>
    simp only [List.all_cons, Bool.and_eq_true] at h
    rw [List.dropWhile_cons, if_neg (by simp [digit_not_space c h.1])]

theorem jsToNumber_digits (s : List Char) (h0 : s ≠ []) (h : s.all Char.isDigit = true) :
    jsToNumber s = some (Int.ofNat (digitsVal s)) := by
  rw [jsToNumber]
  have e1 : s.dropWhile isJsSpace = s := dropWhile_isJsSpace_digits s h
  have e2 : s.reverse.dropWhile isJsSpace = s.reverse :=
    dropWhile_isJsSpace_digits _ (by simpa using h)
  simp only [e1, e2, List.reverse_reverse]
  rw [if_neg (by cases s with | nil => exact absurd rfl h0 | cons c s => simp), if_pos h]

/-! ### Lookup into the built headers object -/

/-- One update step of the header value for a repeated key. -/
def stepHeaderValue : Option HeaderValue → List Char → HeaderValue
  | none, v => .str v
  | some (.str s), v => .list [s, v]
  | some (.list l), v => .list (l ++ [v])

/-- The aggregate of an ordered list of values for one key, starting from a
current value. -/
def aggValues : Option HeaderValue → List (List Char) → Option HeaderValue
  | cur, [] => cur
  | cur, v :: vs => aggValues (some (stepHeaderValue cur v)) vs

/-- The values declared for key `k`, in arrival order. -/
def valuesOf (k : List Char) (pairs : List (List Char × List Char)) : List (List Char) :=
  (pairs.filter (fun q => decide (q.1 = k))).map (fun q => q.2)

theorem lookupHeader_addHeader_ne (hs : Headers) (k k2 v : List Char) (hne : k ≠ k2) :
    lookupHeader (addHeader hs k v) k2 = lookupHeader hs k2 := by
  induction hs with
  | nil => simp [addHeader, lookupHeader, hne]
  | cons q hs ih =>
    rcases q with ⟨k0, cur⟩
    by_cases h0 : k0 = k
    · subst h0
      cases cur <;> simp [addHeader, lookupHeader, hne]
    · by_cases h2 : k0 = k2 <;> simp [addHeader, lookupHeader, h0, h2, ih, Ne.symm hne]

theorem lookupHeader_addHeader_eq (hs : Headers) (k v : List Char) :
    lookupHeader (addHeader hs k v) k = some (stepHeaderValue (lookupHeader hs k) v) := by
  induction hs with
  | nil => simp [addHeader, lookupHeader, stepHeaderValue]
  | cons q hs ih =>
    rcases q with ⟨k0, cur⟩
    by_cases h0 : k0 = k
    · subst h0
      cases cur <;> simp [addHeader, lookupHeader, stepHeaderValue]
    · simp [addHeader, lookupHeader, h0, ih]

theorem lookupHeader_foldl (pairs : List (List Char × List Char)) (hs : Headers)
    (k : List Char) :
    lookupHeader (pairs.foldl (fun h p => addHeader h p.1 p.2) hs) k =
      aggValues (lookupHeader hs k) (valuesOf k pairs) := by
  induction pairs generalizing hs with
  | nil => rfl
  | cons p ps ih =>
    rw [List.foldl_cons, ih (addHeader hs p.1 p.2)]
    by_cases hk : p.1 = k
    · subst hk
      rw [lookupHeader_addHeader_eq]
      have hv : valuesOf p.1 (p :: ps) = p.2 :: valuesOf p.1 ps := by
        simp [valuesOf, List.filter_cons]
      rw [hv, aggValues]
    · rw [lookupHeader_addHeader_ne hs p.1 k p.2 hk]
      have hv : valuesOf k (p :: ps) = valuesOf k ps := by
        simp [valuesOf, List.filter_cons, hk]
      rw [hv]

theorem lookupHeader_buildHeaders (hdrs : List (List Char × List Char)) (k : List Char) :
    lookupHeader (buildHeaders hdrs) k =
      aggValues none (valuesOf k (hdrs.map declaredPair)) := by
  rw [buildHeaders, lookupHeader_foldl]
  rfl

theorem valuesOf_nodup (hdrs : List (List Char × List Char)) (p : List Char × List Char)
    (hp : p ∈ hdrs) (hnd : (hdrs.map (fun q => q.1.map lowerChar)).Nodup) :
    valuesOf (p.1.map lowerChar) (hdrs.map declaredPair) = [p.2.dropWhile isJsSpace] := by
  induction hdrs with
  | nil => cases hp
  | cons q qs ih =>
    rw [List.map_cons, List.nodup_cons] at hnd
    rcases hnd with ⟨hq, hnd⟩
    rcases List.mem_cons.mp hp with rfl | hp2
    · have htail : ((qs.map declaredPair).filter
          (fun q2 => decide (q2.1 = p.1.map lowerChar))).map (fun q2 => q2.2) = [] := by
        have hf : (qs.map declaredPair).filter
            (fun q2 => decide (q2.1 = p.1.map lowerChar)) = [] := by
          rw [List.filter_eq_nil_iff]
          intro a ha
          rcases List.mem_map.mp ha with ⟨r, hr, rfl⟩
          simp only [declaredPair, decide_eq_true_eq]
          intro he
          exact hq (he ▸ List.mem_map_of_mem _ hr)
        rw [hf]
        rfl
      rw [valuesOf, List.map_cons, List.filter_cons,
        if_pos (show decide ((declaredPair p).1 = p.1.map lowerChar) = true by
          simp [declaredPair]),
        List.map_cons, htail]
      simp [declaredPair]
    · have hne : ¬(decide ((declaredPair q).1 = p.1.map lowerChar) = true) := by
        simp only [declaredPair, decide_eq_true_eq]
        intro he
        exact hq (he ▸ List.mem_map_of_mem _ hp2)
      rw [valuesOf, List.map_cons, List.filter_cons, if_neg hne]
      have h2 := ih hp2 hnd
      rw [valuesOf] at h2
      exact h2

/-- C6: a single-chunk response made of a valid status line (whose second
space-token `t` is a digit string), zero or more valid header lines with
pairwise-distinct lower-cased names, and the terminator resolves with
`statusCode` the integer value of `t`, `statusText` the remaining tokens
joined by single spaces, and every declared name, lower-cased, mapped to
its value with leading whitespace after the colon stripped. -/
theorem c6_single_chunk_decoding (sl : List Char) (hdrs : List (List Char × List Char))
    (t : List Char)
    (hsl0 : sl ≠ []) (hslr : '\r' ∉ sl) (hsla : ∀ c ∈ sl, c.toNat < 128)
    (hh : ∀ p ∈ hdrs, ':' ∉ p.1 ∧ '\r' ∉ p.1 ∧ '\r' ∉ p.2 ∧
      (∀ c ∈ p.1, c.toNat < 128) ∧ (∀ c ∈ p.2, c.toNat < 128))
    (ht : (splitChar ' ' sl)[1]? = some t) (ht0 : t ≠ []) (htd : t.all Char.isDigit = true)
    (hnd : (hdrs.map (fun q => q.1.map lowerChar)).Nodup) :
    ∃ hs, runChunks [toBytes (render sl hdrs)] [] =
        ⟨.resolved ⟨some (Int.ofNat (digitsVal t)),
          List.intercalate [' '] ((splitChar ' ' sl).drop 2), hs⟩
          (toBytes (render sl hdrs)), false, true⟩ ∧
      ∀ p ∈ hdrs, lookupHeader hs (p.1.map lowerChar) =
        some (.str (p.2.dropWhile isJsSpace)) := by
  refine ⟨buildHeaders hdrs, ?_, ?_⟩
  · rw [runChunks_render sl hdrs hsl0 hslr hsla hh]
    have hsc : statusCodeOf sl = some (Int.ofNat (digitsVal t)) := by
      rw [statusCodeOf, ht]
      exact jsToNumber_digits t ht0 htd
    rw [hsc]
    rfl
  · intro p hp
    rw [lookupHeader_buildHeaders, valuesOf_nodup hdrs p hp hnd]
    rfl

/-- C6 witness at the spec's example response, without trailing bytes. -/
theorem c6_witness :
    ∃ hs, runChunks [toBytes (render (("HTTP/1.1 200 Connection established").data)
        [((("Proxy-Agent").data), ((" test").data))])] [] =
        ⟨.resolved ⟨some (Int.ofNat (digitsVal (("200").data))),
          List.intercalate [' ']
            ((splitChar ' ' (("HTTP/1.1 200 Connection established").data)).drop 2), hs⟩
          (toBytes (render (("HTTP/1.1 200 Connection established").data)
            [((("Proxy-Agent").data), ((" test").data))])), false, true⟩ ∧
      ∀ p ∈ [((("Proxy-Agent").data), ((" test").data))],
        lookupHeader hs (p.1.map lowerChar) = some (.str (p.2.dropWhile isJsSpace)) :=
  c6_single_chunk_decoding (("HTTP/1.1 200 Connection established").data)
    [((("Proxy-Agent").data), ((" test").data))] (("200").data)
    (by decide) (by decide) (by decide) (by decide) (by decide) (by decide) (by decide)
    (by decide)

/-- C7: in any valid single-chunk response, if the lower-cased name `nm` is
declared with values `a` then `b` in arrival order (other names may be
interleaved), the resulting headers map it to the ordered list `[a, b]`;
declared with `a`, `b` then `c`, to `[a, b, c]`. -/
theorem c7_repeated_header_values (sl : List Char) (hdrs : List (List Char × List Char))
    (nm a b c : List Char)
    (hsl0 : sl ≠ []) (hslr : '\r' ∉ sl) (hsla : ∀ c2 ∈ sl, c2.toNat < 128)
    (hh : ∀ p ∈ hdrs, ':' ∉ p.1 ∧ '\r' ∉ p.1 ∧ '\r' ∉ p.2 ∧
      (∀ c2 ∈ p.1, c2.toNat < 128) ∧ (∀ c2 ∈ p.2, c2.toNat < 128)) :
    (valuesOf (nm.map lowerChar) (hdrs.map declaredPair) = [a, b] →
      ∃ hs, runChunks [toBytes (render sl hdrs)] [] =
          ⟨.resolved ⟨statusCodeOf sl, statusTextOf sl, hs⟩
            (toBytes (render sl hdrs)), false, true⟩ ∧
        lookupHeader hs (nm.map lowerChar) = some (.list [a, b])) ∧
    (valuesOf (nm.map lowerChar) (hdrs.map declaredPair) = [a, b, c] →
      ∃ hs, runChunks [toBytes (render sl hdrs)] [] =
          ⟨.resolved ⟨statusCodeOf sl, statusTextOf sl, hs⟩
            (toBytes (render sl hdrs)), false, true⟩ ∧
        lookupHeader hs (nm.map lowerChar) = some (.list [a, b, c])) := by
  constructor
  · intro hv
    exact ⟨buildHeaders hdrs, runChunks_render sl hdrs hsl0 hslr hsla hh,
      by rw [lookupHeader_buildHeaders, hv]; rfl⟩
  · intro hv
    exact ⟨buildHeaders hdrs, runChunks_render sl hdrs hsl0 hslr hsla hh,
      by rw [lookupHeader_buildHeaders, hv]; rfl⟩

/-- C7 witness: `Set-Cookie` declared three times, with an unrelated header
interleaved, aggregates to the ordered three-element list. -/
theorem c7_witness :
    ∃ hs, runChunks [toBytes (render (("HTTP/1.1 200 OK").data)
        [((("Set-Cookie").data), (("a").data)), ((("Via").data), (("z").data)),
         ((("Set-Cookie").data), (("b").data)), ((("Set-Cookie").data), (("c").data))])] [] =
        ⟨.resolved ⟨statusCodeOf (("HTTP/1.1 200 OK").data),
          statusTextOf (("HTTP/1.1 200 OK").data), hs⟩
          (toBytes (render (("HTTP/1.1 200 OK").data)
            [((("Set-Cookie").data), (("a").data)), ((("Via").data), (("z").data)),
             ((("Set-Cookie").data), (("b").data)), ((("Set-Cookie").data), (("c").data))])),
          false, true⟩ ∧
      lookupHeader hs ((("Set-Cookie").data).map lowerChar) =
        some (.list [("a").data, ("b").data, ("c").data]) :=
  (c7_repeated_header_values (("HTTP/1.1 200 OK").data)
      [((("Set-Cookie").data), (("a").data)), ((("Via").data), (("z").data)),
       ((("Set-Cookie").data), (("b").data)), ((("Set-Cookie").data), (("c").data))]
      (("Set-Cookie").data) (("a").data) (("b").data) (("c").data)
      (by decide) (by decide) (by decide) (by decide)).2 (by decide)

/-- C10: an otherwise-valid response whose status line is non-empty but
whose second space-token is absent or coerces to NaN still resolves — there
is no rejection on account of the status code — with the NaN sentinel as
`statusCode` and the remaining tokens joined as `statusText`. -/
theorem c10_non_numeric_status_resolves (sl : List Char) (hdrs : List (List Char × List Char))
    (hsl0 : sl ≠ []) (hslr : '\r' ∉ sl) (hsla : ∀ c ∈ sl, c.toNat < 128)
    (hh : ∀ p ∈ hdrs, ':' ∉ p.1 ∧ '\r' ∉ p.1 ∧ '\r' ∉ p.2 ∧
      (∀ c ∈ p.1, c.toNat < 128) ∧ (∀ c ∈ p.2, c.toNat < 128))
    (htok : (splitChar ' ' sl)[1]? = none ∨
      ∃ t, (splitChar ' ' sl)[1]? = some t ∧ jsToNumber t = none) :
    ∃ hs, runChunks [toBytes (render sl hdrs)] [] =
        ⟨.resolved ⟨none, List.intercalate [' '] ((splitChar ' ' sl).drop 2), hs⟩
          (toBytes (render sl hdrs)), false, true⟩ := by
  refine ⟨buildHeaders hdrs, ?_⟩
  rw [runChunks_render sl hdrs hsl0 hslr hsla hh]
  have hsc : statusCodeOf sl = none := by
    rcases htok with h | ⟨t, h1, h2⟩
    · rw [statusCodeOf, h]
    · rw [statusCodeOf, h1]
      exact h2
  rw [hsc]
  rfl

/-- C10 witness: `HTTP/1.1 OK` has a non-numeric second token and still
resolves, with the NaN sentinel as statusCode. -/
theorem c10_witness :
    ∃ hs, runChunks [toBytes (render (("HTTP/1.1 OK").data) [])] [] =
        ⟨.resolved ⟨none,
          List.intercalate [' '] ((splitChar ' ' (("HTTP/1.1 OK").data)).drop 2), hs⟩
          (toBytes (render (("HTTP/1.1 OK").data) [])), false, true⟩ :=
  c10_non_numeric_status_resolves (("HTTP/1.1 OK").data) []
    (by decide) (by decide) (by decide) (by decide)
    (Or.inr ⟨("OK").data, by decide, by decide⟩)
